import Mathlib

/-!
# Verification of the triton-spark-server pipeline coordinator

Shallow embedding of the orchestration core of the repository:

* `src/rvc/processing/buffer_queue.py` — `AudioBufferQueue` and
  `OrderedAudioBufferQueue` (ordered reassembly buffer with pacing);
* `src/rvc/server/rvc_server.py` — `RVCServer` (worker pool: `start`,
  `submit_job`, `get_all_results`, `get_status`, `shutdown`);
* `src/rvc/processing/worker_manager.py` — `WorkerManager` (idle monitor,
  per-worker shutdown helpers, `get_tts_worker` / `get_rvc_worker`);
* `src/rvc/processing/pipeline.py` — `TTSRVCPipeline.process` result mapping.

Modelling conventions: wall-clock times and durations are rationals (`ℚ`);
every call that reads `time.time()` takes the current time as an explicit
argument.  Python dicts keyed by integers become association lists
`List (ℕ × β)` with `posLookup` / `posErase` / `posInsert` mirroring
`d[k]` / `del d[k]` / `d[k] = v`.  File-system effects are externalized:
where the source reads an audio file's duration via `soundfile`, the
embedding takes that duration as a parameter (the source's three branches
all reduce to "store the payload with some duration").
-/

/-! ## Association lists for integer-keyed Python dicts -/

/-- Lookup of a key in an integer-keyed association list (Python `d.get(k)` /
`k in d` test combined: `some` iff the key is present). -/
def posLookup {β : Type} : List (ℕ × β) → ℕ → Option β
  | [], _ => none
  | (k, v) :: l, p => if p = k then some v else posLookup l p

/-- Removal of a key from an integer-keyed association list (Python `del d[k]`;
removes the first entry with the key, which is the only one when keys are
unique as in a dict). -/
def posErase {β : Type} : List (ℕ × β) → ℕ → List (ℕ × β)
  | [], _ => []
  | (k, v) :: l, p => if p = k then l else (k, v) :: posErase l p

/-- Key update in an integer-keyed association list (Python `d[k] = v`). -/
def posInsert {β : Type} (l : List (ℕ × β)) (p : ℕ) (v : β) : List (ℕ × β) :=
  (p, v) :: posErase l p

/-- Keys of an association list. -/
def posKeys {β : Type} (l : List (ℕ × β)) : List ℕ :=
  l.map Prod.fst

theorem posLookup_insert_self {β : Type} (l : List (ℕ × β)) (p : ℕ) (v : β) :
    posLookup (posInsert l p v) p = some v := by
  simp [posInsert, posLookup]

theorem posErase_sublist {β : Type} (l : List (ℕ × β)) (p : ℕ) :
    (posErase l p).Sublist l := by
  induction l with
  | nil => simp [posErase]
  | cons hd tl ih =>
    obtain ⟨k, v⟩ := hd
    by_cases h : p = k
    · simpa [posErase, h] using List.sublist_cons_self (k, v) tl
    · simpa [posErase, h] using ih.cons₂ (k, v)

theorem posLookup_erase_ne {β : Type} (l : List (ℕ × β)) (p q : ℕ) (hpq : q ≠ p) :
    posLookup (posErase l p) q = posLookup l q := by
  induction l with
  | nil => simp [posErase]
  | cons hd tl ih =>
    obtain ⟨k, v⟩ := hd
    by_cases hk : p = k
    · subst hk
      simp [posErase, posLookup, hpq]
    · by_cases hq : q = k <;> simp [posErase, posLookup, hk, hq, ih]

theorem posLookup_insert_ne {β : Type} (l : List (ℕ × β)) (p q : ℕ) (v : β) (hpq : q ≠ p) :
    posLookup (posInsert l p v) q = posLookup l q := by
  simp [posInsert, posLookup, hpq, posLookup_erase_ne l p q hpq]

theorem posLookup_eq_none_of_not_mem {β : Type} (l : List (ℕ × β)) (p : ℕ)
    (h : p ∉ posKeys l) : posLookup l p = none := by
  induction l with
  | nil => simp [posLookup]
  | cons hd tl ih =>
    obtain ⟨k, v⟩ := hd
    simp only [posKeys, List.map_cons, List.mem_cons] at h
    push_neg at h
    simp [posLookup, h.1, ih (by simpa [posKeys] using h.2)]

theorem mem_keys_of_posLookup_some {β : Type} (l : List (ℕ × β)) (p : ℕ) (v : β)
    (h : posLookup l p = some v) : p ∈ posKeys l := by
  by_contra hmem
  rw [posLookup_eq_none_of_not_mem l p hmem] at h
  exact Option.noConfusion h

theorem posLookup_erase_self {β : Type} (l : List (ℕ × β)) (p : ℕ)
    (hnd : (posKeys l).Nodup) : posLookup (posErase l p) p = none := by
  induction l with
  | nil => simp [posErase, posLookup]
  | cons hd tl ih =>
    obtain ⟨k, v⟩ := hd
    simp only [posKeys, List.map_cons, List.nodup_cons] at hnd
    by_cases hk : p = k
    · subst hk
      simp only [posErase, if_pos rfl]
      exact posLookup_eq_none_of_not_mem tl p hnd.1
    · simp [posErase, posLookup, hk, ih hnd.2]

theorem posKeys_erase_nodup {β : Type} (l : List (ℕ × β)) (p : ℕ)
    (hnd : (posKeys l).Nodup) : (posKeys (posErase l p)).Nodup :=
  ((posErase_sublist l p).map Prod.fst).nodup hnd

theorem not_mem_keys_erase {β : Type} (l : List (ℕ × β)) (p : ℕ)
    (hnd : (posKeys l).Nodup) : p ∉ posKeys (posErase l p) := by
  induction l with
  | nil => simp [posErase, posKeys]
  | cons hd tl ih =>
    obtain ⟨k, v⟩ := hd
    simp only [posKeys, List.map_cons, List.nodup_cons] at hnd
    by_cases hk : p = k
    · subst hk
      simpa [posErase, posKeys] using hnd.1
    · simp only [posErase, if_neg hk, posKeys, List.map_cons, List.mem_cons]
      push_neg
      exact ⟨hk, ih hnd.2⟩

theorem posKeys_insert_nodup {β : Type} (l : List (ℕ × β)) (p : ℕ) (v : β)
    (hnd : (posKeys l).Nodup) : (posKeys (posInsert l p v)).Nodup := by
  simp only [posInsert, posKeys, List.map_cons, List.nodup_cons]
  exact ⟨not_mem_keys_erase l p hnd, posKeys_erase_nodup l p hnd⟩

theorem length_posErase_of_lookup_some {β : Type} (l : List (ℕ × β)) (p : ℕ) (v : β)
    (h : posLookup l p = some v) : (posErase l p).length + 1 = l.length := by
  induction l with
  | nil => simp [posLookup] at h
  | cons hd tl ih =>
    obtain ⟨k, w⟩ := hd
    by_cases hk : p = k
    · simp [posErase, hk]
    · simp only [posLookup, if_neg hk] at h
      simp [posErase, hk, ih h]

theorem eq_nil_of_posLookup_none {β : Type} (l : List (ℕ × β))
    (h : ∀ p, posLookup l p = none) : l = [] := by
  cases l with
  | nil => rfl
  | cons hd tl =>
    obtain ⟨k, v⟩ := hd
    have := h k
    simp [posLookup] at this

/-! ## `AudioBufferQueue` (src/rvc/processing/buffer_queue.py, lines 17-129) -/

/-- State of `AudioBufferQueue`.  `α` is the payload (file path) type;
the queue stores `(payload, duration)` pairs exactly as the source stores
`(file_path, duration)` tuples. -/
structure AudioBufferQueue (α : Type) where
  queue : List (α × ℚ)
  current_file : Option α
  current_duration : ℚ
  playback_start_time : Option ℚ
  buffer_time : ℚ
deriving DecidableEq

/-- `AudioBufferQueue.__init__` (lines 23-35); `buffer_time` defaults to `1.0`
in the source and is passed explicitly here. -/
def AudioBufferQueue.init (α : Type) (buffer_time : ℚ) : AudioBufferQueue α :=
  { queue := [], current_file := none, current_duration := 0,
    playback_start_time := none, buffer_time := buffer_time }

/-- `AudioBufferQueue.add` (lines 37-59).  All three source branches append
`(file_path, d)` for some duration `d` (the soundfile-measured duration, the
`2.0` fallback, or `0` for a missing file); the duration is therefore a
parameter of the embedding. -/
def AudioBufferQueue.add {α : Type} (b : AudioBufferQueue α) (file_path : α) (duration : ℚ) :
    AudioBufferQueue α :=
  { b with queue := b.queue ++ [(file_path, duration)] }

/-- Second half of `AudioBufferQueue.get_next` (lines 96-110): with no current
file and a non-empty queue, pop the head, make it current, record the start
time, and return it; otherwise return `None`. -/
def AudioBufferQueue.startNext {α : Type} (b : AudioBufferQueue α) (current_time : ℚ) :
    Option α × AudioBufferQueue α :=
  match b.current_file with
  | some _ => (none, b)
  | none =>
    match b.queue with
    | [] => (none, b)
    | (file_path, duration) :: rest =>
      (some file_path,
        { b with queue := rest, current_file := some file_path,
                 current_duration := duration, playback_start_time := some current_time })

/-- `AudioBufferQueue.get_next` (lines 61-110).  `current_time` is the value of
`time.time()` at the call.  If a current file exists and has not yet played for
`current_duration + buffer_time`, return `None` unchanged; otherwise clear the
current file and fall through to popping the queue. -/
def AudioBufferQueue.get_next {α : Type} (b : AudioBufferQueue α) (current_time : ℚ) :
    Option α × AudioBufferQueue α :=
  match b.current_file, b.playback_start_time with
  | some _, some start =>
    if current_time - start < b.current_duration + b.buffer_time then (none, b)
    else AudioBufferQueue.startNext { b with current_file := none } current_time
  | some _, none => AudioBufferQueue.startNext b current_time
  | none, _ => AudioBufferQueue.startNext b current_time

/-- `AudioBufferQueue.is_empty` (lines 112-119). -/
def AudioBufferQueue.is_empty {α : Type} (b : AudioBufferQueue α) : Bool :=
  b.queue.isEmpty && b.current_file.isNone

/-- `AudioBufferQueue.clear` (lines 121-129).  Note the source resets `queue`,
`current_file` and `playback_start_time` but not `current_duration`. -/
def AudioBufferQueue.clear {α : Type} (b : AudioBufferQueue α) : AudioBufferQueue α :=
  { b with queue := [], current_file := none, playback_start_time := none }

/-! ## `OrderedAudioBufferQueue` (buffer_queue.py, lines 132-209) -/

/-- State of `OrderedAudioBufferQueue`: the base-class state plus the
`pending_files` dict (`position ↦ (payload, duration)`) and `next_position`. -/
structure OrderedAudioBufferQueue (α : Type) extends AudioBufferQueue α where
  pending_files : List (ℕ × (α × ℚ))
  next_position : ℕ
deriving DecidableEq

/-- `OrderedAudioBufferQueue.__init__` (lines 138-142). -/
def OrderedAudioBufferQueue.init (α : Type) (buffer_time : ℚ) : OrderedAudioBufferQueue α :=
  { AudioBufferQueue.init α buffer_time with pending_files := [], next_position := 0 }

/-- `OrderedAudioBufferQueue._move_next_pending_to_queue` (lines 177-185):
while `next_position` is a key of `pending_files`, pop that entry, append it to
the ready queue, and increment `next_position`. -/
def OrderedAudioBufferQueue.moveNextPendingToQueue {α : Type}
    (b : OrderedAudioBufferQueue α) : OrderedAudioBufferQueue α :=
  match h : posLookup b.pending_files b.next_position with
  | some fd =>
    OrderedAudioBufferQueue.moveNextPendingToQueue
      { b with pending_files := posErase b.pending_files b.next_position,
               queue := b.queue ++ [fd],
               next_position := b.next_position + 1 }
  | none => b
termination_by b.pending_files.length
decreasing_by
  have := length_posErase_of_lookup_some b.pending_files b.next_position fd h
  omega

/-- `OrderedAudioBufferQueue.add_with_position` (lines 144-175).  As with
`add`, all three source branches store `(file_path, d)` in `pending_files` for
some duration `d` and then call `_move_next_pending_to_queue`; the duration is
a parameter. -/
def OrderedAudioBufferQueue.add_with_position {α : Type} (b : OrderedAudioBufferQueue α)
    (file_path : α) (duration : ℚ) (position : ℕ) : OrderedAudioBufferQueue α :=
  OrderedAudioBufferQueue.moveNextPendingToQueue
    { b with pending_files := posInsert b.pending_files position (file_path, duration) }

/-- `OrderedAudioBufferQueue.get_next` (lines 187-203): run the base-class
`get_next`; if it produced nothing, no file is current and pending files
remain, promote contiguous pending files and retry once. -/
def OrderedAudioBufferQueue.get_next {α : Type} (b : OrderedAudioBufferQueue α)
    (current_time : ℚ) : Option α × OrderedAudioBufferQueue α :=
  let res := b.toAudioBufferQueue.get_next current_time
  let b1 : OrderedAudioBufferQueue α := { b with toAudioBufferQueue := res.2 }
  if b1.current_file.isNone && res.1.isNone && !b1.pending_files.isEmpty then
    let b2 := b1.moveNextPendingToQueue
    let res2 := b2.toAudioBufferQueue.get_next current_time
    (res2.1, { b2 with toAudioBufferQueue := res2.2 })
  else
    (res.1, b1)

/-- `OrderedAudioBufferQueue.clear` (lines 205-209). -/
def OrderedAudioBufferQueue.clear {α : Type} (b : OrderedAudioBufferQueue α) :
    OrderedAudioBufferQueue α :=
  { b with toAudioBufferQueue := b.toAudioBufferQueue.clear,
           pending_files := [], next_position := 0 }

/-- `is_empty` as seen on an ordered buffer (inherited from the base class). -/
def OrderedAudioBufferQueue.is_empty {α : Type} (b : OrderedAudioBufferQueue α) : Bool :=
  b.toAudioBufferQueue.is_empty

/-- Unfolding lemma for `_move_next_pending_to_queue`: the `while` loop exits
when `next_position` is not a pending key. -/
theorem OrderedAudioBufferQueue.moveNextPending_of_none {α : Type}
    (b : OrderedAudioBufferQueue α)
    (h : posLookup b.pending_files b.next_position = none) :
    b.moveNextPendingToQueue = b := by
  rw [OrderedAudioBufferQueue.moveNextPendingToQueue]
  split <;> simp_all

/-- Unfolding lemma for `_move_next_pending_to_queue`: one `while` iteration
pops the pending entry at `next_position`, appends it to the ready queue, and
increments `next_position`. -/
theorem OrderedAudioBufferQueue.moveNextPending_of_some {α : Type}
    (b : OrderedAudioBufferQueue α) (fd : α × ℚ)
    (h : posLookup b.pending_files b.next_position = some fd) :
    b.moveNextPendingToQueue =
      OrderedAudioBufferQueue.moveNextPendingToQueue
        { b with pending_files := posErase b.pending_files b.next_position,
                 queue := b.queue ++ [fd],
                 next_position := b.next_position + 1 } := by
  conv => lhs; rw [OrderedAudioBufferQueue.moveNextPendingToQueue]
  split <;> simp_all

/-- C10: `OrderedAudioBufferQueue.clear()` resets the buffer to its initial
state — afterward `is_empty()` is true, `next_position` is `0` and there is no
current item — and a subsequent `add_with_position` at position `0` is
immediately moved to the ready queue: the position sequence restarts from `0`. -/
theorem ordered_clear_resets {α : Type} (b : OrderedAudioBufferQueue α) (f : α) (d : ℚ) :
    b.clear.is_empty = true ∧
    b.clear.next_position = 0 ∧
    b.clear.current_file = none ∧
    (b.clear.add_with_position f d 0).queue = [(f, d)] ∧
    (b.clear.add_with_position f d 0).pending_files = [] ∧
    (b.clear.add_with_position f d 0).next_position = 1 := by
  have hkey : b.clear.add_with_position f d 0 =
      { b.clear with pending_files := [], queue := [(f, d)], next_position := 1 } := by
    show OrderedAudioBufferQueue.moveNextPendingToQueue
        { b.clear with pending_files := posInsert b.clear.pending_files 0 (f, d) } = _
    rw [OrderedAudioBufferQueue.moveNextPending_of_some _ (f, d)
        (by simp [OrderedAudioBufferQueue.clear, posInsert, posErase, posLookup]),
      OrderedAudioBufferQueue.moveNextPending_of_none _
        (by simp [OrderedAudioBufferQueue.clear, posInsert, posErase, posLookup])]
    simp [OrderedAudioBufferQueue.clear, AudioBufferQueue.clear, posInsert, posErase]
  refine ⟨?_, ?_, ?_, ?_, ?_, ?_⟩
  · simp [OrderedAudioBufferQueue.is_empty, AudioBufferQueue.is_empty,
      OrderedAudioBufferQueue.clear, AudioBufferQueue.clear]
  · simp [OrderedAudioBufferQueue.clear]
  · simp [OrderedAudioBufferQueue.clear, AudioBufferQueue.clear]
  · rw [hkey]
  · rw [hkey]
  · rw [hkey]

/-- C4 counterexample: with the default `buffer_time = 1.0`, a duration-0 item
returned by `get_next` does delay the immediately following `get_next` call.
Here the buffer holds two duration-0 items; the first `get_next` (at time 0)
returns the first item, and a second `get_next` at time 1/2 returns `None`
even though the queue is non-empty — the pacing check
`elapsed < duration + buffer_time` (= 0 + 1) blocks it. -/
theorem get_next_duration_zero_delayed_cex :
    ((((AudioBufferQueue.init ℕ 1).add 7 0).add 8 0).get_next 0).1 = some 7 ∧
    (((((AudioBufferQueue.init ℕ 1).add 7 0).add 8 0).get_next 0).2.get_next (1/2)).1 = none ∧
    ((((AudioBufferQueue.init ℕ 1).add 7 0).add 8 0).get_next 0).2.queue ≠ [] := by
  refine ⟨?_, ?_, ?_⟩ <;>
    norm_num [AudioBufferQueue.init, AudioBufferQueue.add, AudioBufferQueue.get_next,
      AudioBufferQueue.startNext]

/-- C4 amended: a duration-0 item contributes no pacing delay of its own; only
the constant `buffer_time` margin delays the next `get_next`.  If `get_next`
returned an item of duration 0 at time `t`, then any `get_next` at time
`t' ≥ t + buffer_time` pops the queue head (returning `None` only when the
queue is empty).  In particular with `buffer_time = 0` a duration-0 item is
always considered finished immediately. -/
theorem get_next_duration_zero_margin_only {α : Type} (b b' : AudioBufferQueue α)
    (t t' : ℚ) (f : α)
    (hret : b.get_next t = (some f, b'))
    (hdur : b'.current_duration = 0)
    (hmargin : b.buffer_time ≤ t' - t) :
    (b'.get_next t').1 = b'.queue.head?.map Prod.fst := by
  obtain ⟨q, cf, cd, ps, bt⟩ := b
  have hpop : ∀ (q' : List (α × ℚ)) (cd' : ℚ) (ps' : Option ℚ),
      AudioBufferQueue.startNext
        { queue := q', current_file := none, current_duration := cd',
          playback_start_time := ps', buffer_time := bt } t = (some f, b') →
      (b'.get_next t').1 = b'.queue.head?.map Prod.fst := by
    intro q' cd' ps' hstart
    cases hq : q' with
    | nil => simp [AudioBufferQueue.startNext, hq] at hstart
    | cons hd rest =>
      obtain ⟨fh, dh⟩ := hd
      rw [hq] at hstart
      simp only [AudioBufferQueue.startNext, Prod.mk.injEq] at hstart
      obtain ⟨hf, hb'⟩ := hstart
      subst hb'
      have hdh : dh = 0 := hdur
      subst hdh
      have hnotlt : ¬ (t' - t < bt) := not_lt.mpr (by simpa using hmargin)
      cases rest with
      | nil =>
        simp [AudioBufferQueue.get_next, AudioBufferQueue.startNext, hnotlt]
      | cons hd2 r2 =>
        obtain ⟨g, dg⟩ := hd2
        simp [AudioBufferQueue.get_next, AudioBufferQueue.startNext, hnotlt]
  cases cf with
  | none =>
    simp only [AudioBufferQueue.get_next] at hret
    exact hpop q cd ps hret
  | some f0 =>
    cases ps with
    | none =>
      simp only [AudioBufferQueue.get_next, AudioBufferQueue.startNext] at hret
      simp at hret
    | some s =>
      simp only [AudioBufferQueue.get_next] at hret
      by_cases hlt : t - s < cd + bt
      · rw [if_pos hlt] at hret
        simp at hret
      · rw [if_neg hlt] at hret
        exact hpop q cd (some s) hret

/-- C4 amended claim witness: with `buffer_time = 0` and two duration-0
items, the second `get_next` call (at the same time as the first) immediately
yields the second item. -/
theorem get_next_duration_zero_margin_only_witness :
    (((((AudioBufferQueue.init ℕ 0).add 7 0).add 8 0).get_next 0).2.get_next 0).1 = some 8 := by
  have h := get_next_duration_zero_margin_only
    (((AudioBufferQueue.init ℕ 0).add 7 0).add 8 0)
    ((((AudioBufferQueue.init ℕ 0).add 7 0).add 8 0).get_next 0).2
    0 0 7
    (by norm_num [AudioBufferQueue.init, AudioBufferQueue.add, AudioBufferQueue.get_next,
      AudioBufferQueue.startNext])
    (by norm_num [AudioBufferQueue.init, AudioBufferQueue.add, AudioBufferQueue.get_next,
      AudioBufferQueue.startNext])
    (by norm_num [AudioBufferQueue.init, AudioBufferQueue.add])
  refine h.trans ?_
  norm_num [AudioBufferQueue.init, AudioBufferQueue.add, AudioBufferQueue.get_next,
    AudioBufferQueue.startNext]

/-! ## C1: ordering invariant of the reassembly buffer -/

/-- A sequence of `get_next` calls at the given wall-clock times, collecting
the returned payloads in order. -/
def getSeq {α : Type} (b : OrderedAudioBufferQueue α) (ts : List ℚ) :
    List (Option α) × OrderedAudioBufferQueue α :=
  match ts with
  | [] => ([], b)
  | t :: rest =>
    let r := b.get_next t
    let rs := getSeq r.2 rest
    (r.1 :: rs.1, rs.2)

/-- A batch of `add_with_position` calls: for each position `p` in `perm`, add
payload `v p` with duration 0 at position `p`. -/
def addAll {α : Type} (v : ℕ → α) (perm : List ℕ) (b : OrderedAudioBufferQueue α) :
    OrderedAudioBufferQueue α :=
  perm.foldl (fun acc p => acc.add_with_position (v p) 0 p) b

/-- Evaluation lemma: `get_next` pops the queue head when no current item
blocks it (either there is no current item, or the current item's effective
duration has elapsed). -/
theorem ordered_get_next_pop {α : Type} (b : OrderedAudioBufferQueue α) (t : ℚ)
    (a : α) (d : ℚ) (rest : List (α × ℚ))
    (hq : b.queue = (a, d) :: rest)
    (hready : b.current_file = none ∨
      ∃ f s, b.current_file = some f ∧ b.playback_start_time = some s ∧
        ¬(t - s < b.current_duration + b.buffer_time)) :
    b.get_next t = (some a,
      { b with queue := rest, current_file := some a, current_duration := d,
               playback_start_time := some t }) := by
  rcases hready with hnone | ⟨f, s, hcf, hps, hnl⟩
  · simp [OrderedAudioBufferQueue.get_next, AudioBufferQueue.get_next,
      AudioBufferQueue.startNext, hnone, hq]
  · simp [OrderedAudioBufferQueue.get_next, AudioBufferQueue.get_next,
      AudioBufferQueue.startNext, hcf, hps, hnl, hq]

/-- Drain lemma, inner form: with pacing disabled (`buffer_time = 0`), a
duration-0 current item started at `s`, an empty pending map and a queue of
duration-0 items, `get_next` at nondecreasing times `ts` (all at or after `s`)
emits the queued payloads in queue order. -/
theorem getSeq_drain_some {α : Type} (l : List α) :
    ∀ (ts : List ℚ) (b : OrderedAudioBufferQueue α) (f : α) (s : ℚ),
      b.buffer_time = 0 → b.current_duration = 0 → b.current_file = some f →
      b.playback_start_time = some s → b.pending_files = [] →
      b.queue = l.map (fun a => (a, (0:ℚ))) →
      ts.Chain' (· ≤ ·) → (∀ t1 ∈ ts.head?, s ≤ t1) → ts.length = l.length →
      (getSeq b ts).1 = l.map some := by
  induction l with
  | nil =>
    intro ts b f s _ _ _ _ _ _ _ _ hlen
    have hts : ts = [] := List.length_eq_zero.mp (by simpa using hlen)
    subst hts
    simp [getSeq]
  | cons a l' ih =>
    intro ts b f s hbt hcd hcf hps hpend hq hch hhead hlen
    cases ts with
    | nil => simp at hlen
    | cons t ts' =>
      have hst : s ≤ t := hhead t (by simp)
      have hpop := ordered_get_next_pop b t a 0 (l'.map (fun a => (a, (0:ℚ))))
        (by simpa using hq)
        (Or.inr ⟨f, s, hcf, hps, by
          rw [hcd, hbt]
          simpa [sub_nonneg] using not_lt.mpr (sub_nonneg.mpr hst)⟩)
      have hrec := ih ts'
        { b with queue := l'.map (fun a => (a, (0:ℚ))), current_file := some a,
                 current_duration := 0, playback_start_time := some t }
        a t (by simpa using hbt) rfl rfl rfl (by simpa using hpend) rfl
        hch.tail
        (fun t1 ht1 => (List.chain'_cons'.mp hch).1 t1 ht1)
        (by simpa using hlen)
      simp only [getSeq, hpop, List.map_cons]
      exact congrArg (some a :: ·) hrec

/-- Drain lemma, outer form: with pacing disabled, no current item, an empty
pending map and a queue of duration-0 items, `get_next` at nondecreasing times
emits the queued payloads in queue order. -/
theorem getSeq_drain {α : Type} (l : List α) (ts : List ℚ) (b : OrderedAudioBufferQueue α)
    (hbt : b.buffer_time = 0) (hcf : b.current_file = none)
    (hpend : b.pending_files = [])
    (hq : b.queue = l.map (fun a => (a, (0:ℚ))))
    (hch : ts.Chain' (· ≤ ·)) (hlen : ts.length = l.length) :
    (getSeq b ts).1 = l.map some := by
  cases l with
  | nil =>
    have hts : ts = [] := List.length_eq_zero.mp (by simpa using hlen)
    subst hts
    simp [getSeq]
  | cons a l' =>
    cases ts with
    | nil => simp at hlen
    | cons t ts' =>
      have hpop := ordered_get_next_pop b t a 0 (l'.map (fun a => (a, (0:ℚ))))
        (by simpa using hq) (Or.inl hcf)
      have hrec := getSeq_drain_some l' ts'
        { b with queue := l'.map (fun a => (a, (0:ℚ))), current_file := some a,
                 current_duration := 0, playback_start_time := some t }
        a t (by simpa using hbt) rfl rfl rfl (by simpa using hpend) rfl
        hch.tail
        (fun t1 ht1 => (List.chain'_cons'.mp hch).1 t1 ht1)
        (by simpa using hlen)
      simp only [getSeq, hpop, List.map_cons]
      exact congrArg (some a :: ·) hrec

/-- Invariant of the ordered buffer during a pure add phase (no `get_next`
calls yet): after the positions in `S` have been added (payload `v p`,
duration 0, at position `p`), `next_position` is the least position not in
`S`, the ready queue holds positions `0 .. next_position - 1` in order, and
`pending_files` holds exactly the added positions at or beyond
`next_position`. -/
structure AddPhaseInv {α : Type} (v : ℕ → α) (S : List ℕ)
    (b : OrderedAudioBufferQueue α) : Prop where
  keys_nodup : (posKeys b.pending_files).Nodup
  np_notin : b.next_position ∉ S
  np_below : ∀ p, p < b.next_position → p ∈ S
  queue_eq : b.queue = (List.range b.next_position).map (fun p => (v p, (0:ℚ)))
  pending_eq : ∀ p, posLookup b.pending_files p =
    if p ∈ S ∧ b.next_position ≤ p then some (v p, (0:ℚ)) else none
  cur_none : b.current_file = none
  bt_zero : b.buffer_time = 0

/-- Effect of `_move_next_pending_to_queue` on a state whose pending map is
characterized by an added-position set `S`: it advances `next_position` to the
least position at or beyond it that is not in `S`, moving exactly the
contiguous run into the ready queue, and touches nothing else. -/
theorem moveNextPending_spec {α : Type} (v : ℕ → α) (S : List ℕ) :
    ∀ (b : OrderedAudioBufferQueue α),
      (posKeys b.pending_files).Nodup →
      (∀ p, posLookup b.pending_files p =
        if p ∈ S ∧ b.next_position ≤ p then some (v p, (0:ℚ)) else none) →
      b.queue = (List.range b.next_position).map (fun p => (v p, (0:ℚ))) →
      ∃ np', b.next_position ≤ np' ∧ np' ∉ S ∧
        (∀ q, b.next_position ≤ q → q < np' → q ∈ S) ∧
        b.moveNextPendingToQueue.next_position = np' ∧
        (posKeys b.moveNextPendingToQueue.pending_files).Nodup ∧
        (∀ p, posLookup b.moveNextPendingToQueue.pending_files p =
          if p ∈ S ∧ np' ≤ p then some (v p, (0:ℚ)) else none) ∧
        b.moveNextPendingToQueue.queue =
          (List.range np').map (fun p => (v p, (0:ℚ))) ∧
        b.moveNextPendingToQueue.current_file = b.current_file ∧
        b.moveNextPendingToQueue.buffer_time = b.buffer_time ∧
        b.moveNextPendingToQueue.current_duration = b.current_duration ∧
        b.moveNextPendingToQueue.playback_start_time = b.playback_start_time := by
  suffices h : ∀ (n : ℕ) (b : OrderedAudioBufferQueue α), b.pending_files.length = n →
      (posKeys b.pending_files).Nodup →
      (∀ p, posLookup b.pending_files p =
        if p ∈ S ∧ b.next_position ≤ p then some (v p, (0:ℚ)) else none) →
      b.queue = (List.range b.next_position).map (fun p => (v p, (0:ℚ))) →
      ∃ np', b.next_position ≤ np' ∧ np' ∉ S ∧
        (∀ q, b.next_position ≤ q → q < np' → q ∈ S) ∧
        b.moveNextPendingToQueue.next_position = np' ∧
        (posKeys b.moveNextPendingToQueue.pending_files).Nodup ∧
        (∀ p, posLookup b.moveNextPendingToQueue.pending_files p =
          if p ∈ S ∧ np' ≤ p then some (v p, (0:ℚ)) else none) ∧
        b.moveNextPendingToQueue.queue =
          (List.range np').map (fun p => (v p, (0:ℚ))) ∧
        b.moveNextPendingToQueue.current_file = b.current_file ∧
        b.moveNextPendingToQueue.buffer_time = b.buffer_time ∧
        b.moveNextPendingToQueue.current_duration = b.current_duration ∧
        b.moveNextPendingToQueue.playback_start_time = b.playback_start_time by
    exact fun b => h b.pending_files.length b rfl
  intro n
  induction n using Nat.strong_induction_on with
  | _ n ih =>
    intro b hn hnd hpend hqueue
    by_cases hmem : b.next_position ∈ S
    · have hlook : posLookup b.pending_files b.next_position =
          some (v b.next_position, (0:ℚ)) := by
        rw [hpend]
        simp [hmem]
      rw [OrderedAudioBufferQueue.moveNextPending_of_some _ _ hlook]
      have hlt : (posErase b.pending_files b.next_position).length < n := by
        have := length_posErase_of_lookup_some _ _ _ hlook
        omega
      obtain ⟨np', h1, h2, h3, h4, h5, h6, h7, h8, h9, h10, h11⟩ :=
        ih _ hlt
          { b with pending_files := posErase b.pending_files b.next_position,
                   queue := b.queue ++ [(v b.next_position, (0:ℚ))],
                   next_position := b.next_position + 1 }
          rfl
          (by simpa using posKeys_erase_nodup _ _ hnd)
          (by
            intro p
            dsimp only
            by_cases hp : p = b.next_position
            · subst hp
              rw [posLookup_erase_self b.pending_files b.next_position hnd,
                if_neg (fun hcon => absurd hcon.2 (by omega))]
            · rw [posLookup_erase_ne b.pending_files b.next_position p hp, hpend p]
              by_cases hps : p ∈ S
              · by_cases hle : b.next_position + 1 ≤ p
                · rw [if_pos ⟨hps, by omega⟩, if_pos ⟨hps, hle⟩]
                · rw [if_neg (fun hcon => absurd hcon.2 (by omega)),
                    if_neg (fun hcon => absurd hcon.2 (by omega))]
              · rw [if_neg (fun hcon => hps hcon.1), if_neg (fun hcon => hps hcon.1)])
          (by
            dsimp only
            simp only [hqueue]
            rw [List.range_succ]
            simp)
      have h1' : b.next_position + 1 ≤ np' := h1
      refine ⟨np', by omega, h2, ?_, h4, h5, h6, h7, h8, h9, h10, h11⟩
      intro q hq1 hq2
      rcases Nat.eq_or_lt_of_le hq1 with hq | hq
      · exact hq ▸ hmem
      · exact h3 q (show b.next_position + 1 ≤ q by omega) hq2
    · have hlook : posLookup b.pending_files b.next_position = none := by
        rw [hpend]
        simp [hmem]
      rw [OrderedAudioBufferQueue.moveNextPending_of_none _ hlook]
      exact ⟨b.next_position, le_refl _, hmem, fun q hq1 hq2 => absurd hq1 (by omega),
        rfl, hnd, hpend, hqueue, rfl, rfl, rfl, rfl⟩

/-- Effect of one `add_with_position` call (payload `v p`, duration 0,
position `p` not yet added) on the add-phase invariant. -/
theorem addPhase_step {α : Type} (v : ℕ → α) (S : List ℕ) (b : OrderedAudioBufferQueue α)
    (p : ℕ) (hp : p ∉ S) (inv : AddPhaseInv v S b) :
    AddPhaseInv v (p :: S) (b.add_with_position (v p) 0 p) := by
  have hnple : b.next_position ≤ p := by
    by_contra h
    exact hp (inv.np_below p (by omega))
  have hnd1 : (posKeys (posInsert b.pending_files p (v p, (0:ℚ)))).Nodup :=
    posKeys_insert_nodup _ _ _ inv.keys_nodup
  have hpend1 : ∀ q, posLookup (posInsert b.pending_files p (v p, (0:ℚ))) q =
      if q ∈ p :: S ∧ b.next_position ≤ q then some (v q, (0:ℚ)) else none := by
    intro q
    by_cases hq : q = p
    · subst hq
      rw [posLookup_insert_self, if_pos ⟨List.mem_cons_self q S, hnple⟩]
    · rw [posLookup_insert_ne _ _ _ _ hq, inv.pending_eq q]
      by_cases hqs : q ∈ S
      · by_cases hle : b.next_position ≤ q
        · rw [if_pos ⟨hqs, hle⟩, if_pos ⟨List.mem_cons_of_mem _ hqs, hle⟩]
        · rw [if_neg (fun hc => hle hc.2), if_neg (fun hc => hle hc.2)]
      · rw [if_neg (fun hc => hqs hc.1),
          if_neg (fun hc => (List.mem_cons.mp hc.1).elim (fun h1 => hq h1) (fun h1 => hqs h1))]
  obtain ⟨np', g1, g2, g3, g4, g5, g6, g7, g8, g9, g10, g11⟩ :=
    moveNextPending_spec v (p :: S)
      { b with pending_files := posInsert b.pending_files p (v p, (0:ℚ)) }
      (by dsimp only; exact hnd1)
      (by intro q; dsimp only; exact hpend1 q)
      (by dsimp only; exact inv.queue_eq)
  have g1' : b.next_position ≤ np' := g1
  refine ⟨g5, ?_, ?_, ?_, ?_, ?_, ?_⟩
  · show (_ : OrderedAudioBufferQueue α).next_position ∉ p :: S
    rw [show (b.add_with_position (v p) 0 p).next_position = np' from g4]
    exact g2
  · intro q hq
    rw [show (b.add_with_position (v p) 0 p).next_position = np' from g4] at hq
    by_cases hlt : q < b.next_position
    · exact List.mem_cons_of_mem _ (inv.np_below q hlt)
    · exact g3 q (show b.next_position ≤ q by omega) hq
  · rw [show (b.add_with_position (v p) 0 p).next_position = np' from g4]
    exact g7
  · intro q
    rw [show (b.add_with_position (v p) 0 p).next_position = np' from g4]
    exact g6 q
  · exact g8.trans inv.cur_none
  · exact g9.trans inv.bt_zero

/-- The add-phase invariant only depends on the added positions as a set. -/
theorem addPhaseInv_congr {α : Type} (v : ℕ → α) (S S2 : List ℕ)
    (b : OrderedAudioBufferQueue α) (h : ∀ q, q ∈ S ↔ q ∈ S2)
    (inv : AddPhaseInv v S b) : AddPhaseInv v S2 b := by
  refine ⟨inv.keys_nodup, fun hm => inv.np_notin ((h _).mpr hm),
    fun p hp => (h p).mp (inv.np_below p hp), inv.queue_eq, ?_, inv.cur_none, inv.bt_zero⟩
  intro p
  rw [inv.pending_eq p]
  by_cases hb : b.next_position ≤ p
  · by_cases hs : p ∈ S
    · rw [if_pos ⟨hs, hb⟩, if_pos ⟨(h p).mp hs, hb⟩]
    · rw [if_neg (fun hc => hs hc.1), if_neg (fun hc => hs ((h p).mpr hc.1))]
  · rw [if_neg (fun hc => hb hc.2), if_neg (fun hc => hb hc.2)]

/-- Folding `add_with_position` over a list of fresh, pairwise-distinct
positions preserves the add-phase invariant, with the added set growing by
exactly those positions. -/
theorem addAll_inv {α : Type} (v : ℕ → α) :
    ∀ (perm S : List ℕ) (b : OrderedAudioBufferQueue α),
      AddPhaseInv v S b → perm.Nodup → (∀ p ∈ perm, p ∉ S) →
      ∃ S', (∀ q, q ∈ S' ↔ q ∈ perm ∨ q ∈ S) ∧ AddPhaseInv v S' (addAll v perm b) := by
  intro perm
  induction perm with
  | nil =>
    intro S b inv _ _
    exact ⟨S, fun q => by simp, inv⟩
  | cons p rest ih =>
    intro S b inv hnd hnotin
    have step := addPhase_step v S b p (hnotin p (by simp)) inv
    have hnd' := (List.nodup_cons.mp hnd).2
    have hni' : ∀ q ∈ rest, q ∉ p :: S := by
      intro q hq
      simp only [List.mem_cons]
      push_neg
      exact ⟨fun hqp => (List.nodup_cons.mp hnd).1 (hqp ▸ hq),
        hnotin q (List.mem_cons_of_mem _ hq)⟩
    obtain ⟨S', hS', inv'⟩ := ih (p :: S) (b.add_with_position (v p) 0 p) step hnd' hni'
    refine ⟨S', ?_, inv'⟩
    intro q
    rw [hS' q]
    simp only [List.mem_cons]
    tauto

/-- C1: ordering invariant of the ordered reassembly buffer.  With
`buffer_time = 0` and duration-0 items, adding payloads `v 0, …, v (N-1)` at
positions `0, …, N-1` in any order (`perm` is any permutation of
`0, …, N-1`) and then calling `get_next` `N` times at nondecreasing times
yields exactly the payloads in position order `v 0, v 1, …, v (N-1)`, each
exactly once — in particular position `k` is emitted only after
`0, …, k-1`. -/
theorem ordered_buffer_emits_in_position_order {α : Type} (v : ℕ → α) (N : ℕ)
    (perm : List ℕ) (hperm : perm.Perm (List.range N))
    (ts : List ℚ) (hlen : ts.length = N) (hch : ts.Chain' (· ≤ ·)) :
    (getSeq (addAll v perm (OrderedAudioBufferQueue.init α 0)) ts).1 =
      (List.range N).map (fun p => some (v p)) := by
  have hinv0 : AddPhaseInv v [] (OrderedAudioBufferQueue.init α 0) := by
    refine ⟨?_, ?_, ?_, ?_, ?_, rfl, rfl⟩
    · simp [OrderedAudioBufferQueue.init, posKeys]
    · simp
    · intro p hp
      have : p < 0 := hp
      omega
    · rfl
    · intro p
      simp [OrderedAudioBufferQueue.init, posLookup]
  have hnd : perm.Nodup := hperm.nodup_iff.mpr (List.nodup_range N)
  obtain ⟨S', hS', inv⟩ := addAll_inv v perm [] _ hinv0 hnd (by simp)
  have hmemS' : ∀ q, q ∈ S' ↔ q < N := by
    intro q
    rw [hS' q]
    simp [hperm.mem_iff, List.mem_range]
  have hnpN : (addAll v perm (OrderedAudioBufferQueue.init α 0)).next_position = N := by
    have h1 : ¬ (addAll v perm (OrderedAudioBufferQueue.init α 0)).next_position < N :=
      fun hc => inv.np_notin ((hmemS' _).mpr hc)
    have h2 : ¬ N < (addAll v perm (OrderedAudioBufferQueue.init α 0)).next_position :=
      fun hc => by
        have := (hmemS' N).mp (inv.np_below N hc)
        omega
    omega
  have hqueue : (addAll v perm (OrderedAudioBufferQueue.init α 0)).queue =
      ((List.range N).map v).map (fun a => (a, (0:ℚ))) := by
    rw [inv.queue_eq, hnpN, List.map_map]
    rfl
  have hpendnil : (addAll v perm (OrderedAudioBufferQueue.init α 0)).pending_files = [] := by
    apply eq_nil_of_posLookup_none
    intro p
    rw [inv.pending_eq p, if_neg]
    rintro ⟨hps, hple⟩
    have := (hmemS' p).mp hps
    rw [hnpN] at hple
    omega
  have hdrain := getSeq_drain ((List.range N).map v) ts
    (addAll v perm (OrderedAudioBufferQueue.init α 0))
    inv.bt_zero inv.cur_none hpendnil hqueue hch (by simp [hlen])
  rw [hdrain, List.map_map]
  rfl

/-- C1 witness: payloads `0, 1, 2` added at positions `2, 0, 1` (an
out-of-order arrival) and drained by three `get_next` calls come out as
`0, 1, 2`. -/
theorem ordered_buffer_emits_in_position_order_witness :
    (getSeq (addAll (fun p => p) [2, 0, 1] (OrderedAudioBufferQueue.init ℕ 0))
      [0, 0, 0]).1 = [some 0, some 1, some 2] := by
  have h := ordered_buffer_emits_in_position_order (α := ℕ) (fun p => p) 3 [2, 0, 1]
    (by decide) [0, 0, 0] rfl (by norm_num)
  exact h.trans (by decide)

/-! ## `RVCServer` (src/rvc/server/rvc_server.py) -/

/-- `RVCJob` (rvc_server.py, lines 33-76).  `job_id` is a Python int drawn
from the server's 32-bit `c_int` counter, so it ranges over `ℤ`. -/
structure RVCJob where
  job_id : ℤ
  input_audio_path : String
  output_audio_path : String
  pitch_shift : ℤ
  f0_method : String
  index_rate : ℚ
  filter_radius : ℤ
  resample_sr : ℤ
  rms_mix_rate : ℚ
  protect : ℚ
deriving DecidableEq

/-- `RVCResult` (rvc_server.py, lines 79-106).  `job_id` echoes the job's id
(a `c_int`-valued integer). -/
structure RVCResult where
  job_id : ℤ
  success : Bool
  output_path : Option String
  error : Option String
  worker_id : ℤ
  processing_time : ℚ
deriving DecidableEq

/-- Observable state of one spawned worker process after its initialization
phase. -/
structure WorkerHandle where
  wid : ℕ
  ready_set : Bool
  alive : Bool
deriving DecidableEq

/-- Initialization phase of `rvc_worker_process` (rvc_server.py, lines
109-233).  `initOk` abstracts whether RVC model warm-up succeeds.  On success
the worker sets `ready_event` (line 150) and enters its job loop (the process
stays alive); on failure the exception handler also sets `ready_event` — the
source comment reads "Signal ready (with failure)" (line 224) — and the
process exits.  Either way `ready_set` is true. -/
def rvcWorkerInit (wid : ℕ) (initOk : Bool) : WorkerHandle :=
  { wid := wid, ready_set := true, alive := initOk }

/-- State of `RVCServer` (rvc_server.py, lines 236-460).  `job_queue` entries
are `Option RVCJob`: `none` is the shutdown sentinel.  `job_counter` holds the
current value of the shared `Value(c_int, 0)` (line 267) — a 32-bit signed C
int, so an integer in `[-2^31, 2^31 - 1]`. -/
structure RVCServer where
  model_name : String
  num_workers : ℕ
  workers : List WorkerHandle
  ready_events : List Bool
  job_queue : List (Option RVCJob)
  result_queue : List RVCResult
  job_counter : ℤ
  is_running : Bool
deriving DecidableEq

/-- `RVCServer.__init__` (lines 253-270). -/
def RVCServer.init (model_name : String) (num_workers : ℕ) : RVCServer :=
  { model_name := model_name, num_workers := num_workers, workers := [],
    ready_events := [], job_queue := [], result_queue := [],
    job_counter := 0, is_running := false }

/-- `RVCServer.shutdown` (lines 431-460): no-op when not running and no
workers; otherwise put one `None` sentinel per worker on the job queue, join
or terminate every worker, clear `workers` and `ready_events`, and clear
`is_running`. -/
def RVCServer.shutdown (s : RVCServer) : RVCServer :=
  if !s.is_running && s.workers.isEmpty then s
  else
    { s with job_queue := s.job_queue ++ List.replicate s.num_workers none,
             workers := [], ready_events := [], is_running := false }

/-- `RVCServer.start` (lines 272-327).  If already running, return `True`
immediately (lines 282-284).  Otherwise spawn `num_workers` worker processes
(each appending its ready event), then wait on each ready event in turn.
`initOk i` says whether worker `i`'s model warm-up succeeds; since the worker
sets its ready event on both the success and the failure path, each wait
(line 320) observes a set event — the timeout branches (lines 315-323) are
unreachable when every spawned process runs its initialization to the signal,
which is what this embedding models.  Then `is_running` is set and `True` is
returned. -/
def RVCServer.start (s : RVCServer) (initOk : ℕ → Bool) : Bool × RVCServer :=
  if s.is_running then (true, s)
  else
    let spawned : List WorkerHandle :=
      (List.range s.num_workers).map (fun i => rvcWorkerInit i (initOk i))
    let s1 : RVCServer :=
      { s with workers := s.workers ++ spawned,
               ready_events :=
                 s.ready_events ++ spawned.map (fun (w : WorkerHandle) => w.ready_set) }
    if s1.ready_events.all (fun e => e) then (true, { s1 with is_running := true })
    else (false, s1.shutdown)

/-- `workers_alive` component of `RVCServer.get_status` (line 426):
`sum(1 for w in self.workers if w.is_alive())`. -/
def RVCServer.workers_alive (s : RVCServer) : ℕ :=
  (s.workers.filter (fun w => w.alive)).length

/-- Truncation to a 32-bit signed C int: assigning an out-of-range Python int
to a ctypes `c_int` (as `self.job_counter.value += 1` does on overflow)
silently wraps to two's complement.  `2147483648 = 2^31` and
`4294967296 = 2^32`. -/
def toCInt (n : ℤ) : ℤ :=
  (n + 2147483648) % 4294967296 - 2147483648

/-- `RVCServer.submit_job` (lines 329-369): raise if the server is not
running; otherwise take the current value of the shared job counter as the
job id, increment the counter (`self.job_counter.value += 1` — the
assignment truncates to `c_int`, wrapping at `2^31`), build the job and
enqueue it. -/
def RVCServer.submit_job (s : RVCServer) (input_audio_path output_audio_path : String)
    (pitch_shift : ℤ) (f0_method : String) (index_rate : ℚ) (filter_radius : ℤ)
    (resample_sr : ℤ) (rms_mix_rate : ℚ) (protect : ℚ) :
    Except String (ℤ × RVCServer) :=
  if !s.is_running then .error "Server not running"
  else
    let job_id := s.job_counter
    let job : RVCJob :=
      { job_id := job_id, input_audio_path := input_audio_path,
        output_audio_path := output_audio_path, pitch_shift := pitch_shift,
        f0_method := f0_method, index_rate := index_rate,
        filter_radius := filter_radius, resample_sr := resample_sr,
        rms_mix_rate := rms_mix_rate, protect := protect }
    .ok (job_id, { s with job_counter := toCInt (s.job_counter + 1),
                          job_queue := s.job_queue ++ [some job] })

/-- `n` successive `submit_job` calls with the same arguments, collecting the
returned job ids (stopping if a call raises). -/
def RVCServer.submitMany (s : RVCServer) (inp out : String) (ps : ℤ) (fm : String)
    (ir : ℚ) (fr rs : ℤ) (rmr pr : ℚ) : ℕ → List ℤ × RVCServer
  | 0 => ([], s)
  | n + 1 =>
    match s.submit_job inp out ps fm ir fr rs rmr pr with
    | .error _ => ([], s)
    | .ok (jid, s') =>
      let rest := s'.submitMany inp out ps fm ir fr rs rmr pr n
      (jid :: rest.1, rest.2)

/-- C9: `start` on an already-running server returns `True` immediately and
changes nothing — no workers are spawned and the workers list, ready events,
job counter and queues are all left exactly as they were. -/
theorem start_idempotent_when_running (s : RVCServer) (initOk : ℕ → Bool)
    (h : s.is_running = true) : s.start initOk = (true, s) := by
  simp [RVCServer.start, h]

/-- C9 witness: a concrete running server is returned unchanged by `start`. -/
theorem start_idempotent_when_running_witness :
    ({ RVCServer.init "SilverWolf.pth" 2 with is_running := true } : RVCServer).start
        (fun _ => false) =
      (true, { RVCServer.init "SilverWolf.pth" 2 with is_running := true }) :=
  start_idempotent_when_running _ _ rfl

/-- C2 (code bug): starting a pool of 3 workers where worker 1's warm-up
always fails.  Because a worker whose initialization fails still sets its
ready event ("Signal ready (with failure)", line 224) and `start` only waits
on the ready events, `start()` returns `True` — not `False` — and sets
`is_running`; the failed worker's process has exited, so `workers_alive` in
`get_status()` is 2, not 0.  This contradicts both the claim and the
function's own docstring ("Returns: True if all workers started
successfully"). -/
theorem start_partial_pool_bug :
    ((RVCServer.init "SilverWolf.pth" 3).start (fun i => !(i == 1))).1 = true ∧
    ((RVCServer.init "SilverWolf.pth" 3).start (fun i => !(i == 1))).2.workers_alive = 2 ∧
    ((RVCServer.init "SilverWolf.pth" 3).start (fun i => !(i == 1))).2.is_running = true := by
  refine ⟨?_, ?_, ?_⟩ <;> rfl

/-- Two's-complement truncation is the identity on values already in the
`c_int` range. -/
theorem toCInt_eq_self (n : ℤ) (h1 : -2147483648 ≤ n) (h2 : n ≤ 2147483647) :
    toCInt n = n := by
  unfold toCInt
  have h3 : 0 ≤ n + 2147483648 := by omega
  have h4 : n + 2147483648 < 4294967296 := by omega
  rw [Int.emod_eq_of_lt h3 h4]
  ring

theorem range_map_add_shift (c : ℤ) (n : ℕ) :
    (List.range (n + 1)).map (fun (i : ℕ) => c + (i : ℤ)) =
      c :: (List.range n).map (fun (i : ℕ) => (c + 1) + (i : ℤ)) := by
  rw [List.range_succ_eq_map, List.map_cons, List.map_map]
  refine congrArg₂ List.cons (by simp) ?_
  refine List.map_congr_left ?_
  intro i _
  simp only [Function.comp]
  push_cast
  ring

/-- C6 counterexample: the job counter is a 32-bit signed `c_int`
(`Value(c_int, 0)`, rvc_server.py line 267), and `self.job_counter.value += 1`
silently wraps at `2^31`.  On a server whose counter has reached
`2147483647 = 2^31 - 1` (the state after `2^31` successful submissions from a
fresh server), two successive `submit_job` calls return the ids
`[2147483647, -2147483648]` — the second id is *smaller* than the first, so
job ids are not strictly increasing for all call sequences, refuting the
claim as stated. -/
theorem submit_job_wrap_cex :
    (({ RVCServer.init "SilverWolf.pth" 2 with
        is_running := true, job_counter := 2147483647 } : RVCServer).submitMany
      "in.wav" "out.wav" 0 "rmvpe" 1 3 0 1 1 2).1 = [2147483647, -2147483648] ∧
    ¬ ((2147483647 : ℤ) < -2147483648) := by
  refine ⟨?_, ?_⟩
  · decide
  · decide

/-- C6 amended: `submit_job` raises exactly when the server is not running;
on a running server it always succeeds, returning the current job counter as
the job id and advancing the counter with `c_int` wrap-around (leaving the
server running).  As long as the counter does not overflow the 32-bit signed
range — i.e. for `n` successive calls with `job_counter + n ≤ 2^31` — the
returned ids are the consecutive values `job_counter, job_counter + 1, …`;
in particular the first `n ≤ 2^31` calls on a fresh server (counter 0)
return `0, 1, …, n-1`.  Beyond that the counter wraps to `-2^31` and
monotonicity fails (see the counterexample). -/
theorem submit_job_spec (s : RVCServer) (inp out : String) (ps : ℤ) (fm : String)
    (ir : ℚ) (fr rs : ℤ) (rmr pr : ℚ) (n : ℕ) :
    ((∃ e, s.submit_job inp out ps fm ir fr rs rmr pr = .error e) ↔
      s.is_running = false) ∧
    (s.is_running = true → ∃ s', s.submit_job inp out ps fm ir fr rs rmr pr =
      .ok (s.job_counter, s') ∧ s'.job_counter = toCInt (s.job_counter + 1) ∧
      s'.is_running = true) ∧
    (s.is_running = true → 0 ≤ s.job_counter →
      s.job_counter + n ≤ 2147483648 →
      (s.submitMany inp out ps fm ir fr rs rmr pr n).1 =
        (List.range n).map (fun (i : ℕ) => s.job_counter + (i : ℤ))) ∧
    (s.is_running = true → s.job_counter = 0 → (n : ℤ) ≤ 2147483648 →
      (s.submitMany inp out ps fm ir fr rs rmr pr n).1 =
        (List.range n).map (fun (i : ℕ) => (i : ℤ))) := by
  have hmany : ∀ (m : ℕ) (t : RVCServer), t.is_running = true →
      0 ≤ t.job_counter → t.job_counter + m ≤ 2147483648 →
      (t.submitMany inp out ps fm ir fr rs rmr pr m).1 =
        (List.range m).map (fun (i : ℕ) => t.job_counter + (i : ℤ)) := by
    intro m
    induction m with
    | zero => intro t _ _ _; simp [RVCServer.submitMany]
    | succ m ih =>
      intro t ht h0 hbound
      have hstep : t.submit_job inp out ps fm ir fr rs rmr pr =
          .ok (t.job_counter,
            { t with job_counter := toCInt (t.job_counter + 1),
                     job_queue := t.job_queue ++
                       [some { job_id := t.job_counter, input_audio_path := inp,
                               output_audio_path := out, pitch_shift := ps,
                               f0_method := fm, index_rate := ir,
                               filter_radius := fr, resample_sr := rs,
                               rms_mix_rate := rmr, protect := pr }] }) := by
        simp [RVCServer.submit_job, ht]
      simp only [RVCServer.submitMany, hstep]
      cases m with
      | zero =>
        simp [RVCServer.submitMany, List.range_succ]
      | succ m' =>
        have hc1 : toCInt (t.job_counter + 1) = t.job_counter + 1 :=
          toCInt_eq_self _ (by omega) (by omega)
        have hrec := ih
          { t with job_counter := toCInt (t.job_counter + 1),
                   job_queue := t.job_queue ++
                     [some { job_id := t.job_counter, input_audio_path := inp,
                             output_audio_path := out, pitch_shift := ps,
                             f0_method := fm, index_rate := ir,
                             filter_radius := fr, resample_sr := rs,
                             rms_mix_rate := rmr, protect := pr }] }
          (by simpa using ht)
          (by show (0:ℤ) ≤ toCInt (t.job_counter + 1); rw [hc1]; omega)
          (by show toCInt (t.job_counter + 1) + ((m' + 1 : ℕ) : ℤ) ≤ 2147483648
              rw [hc1]
              push_cast at hbound ⊢
              omega)
        rw [hrec]
        show t.job_counter :: (List.range (m' + 1)).map
            (fun (i : ℕ) => toCInt (t.job_counter + 1) + (i : ℤ)) =
          (List.range (m' + 1 + 1)).map (fun (i : ℕ) => t.job_counter + (i : ℤ))
        rw [hc1, range_map_add_shift t.job_counter (m' + 1)]
  refine ⟨?_, ?_, fun ht h0 hb => hmany n s ht h0 hb, ?_⟩
  · constructor
    · rintro ⟨e, he⟩
      by_contra hrun
      have ht : s.is_running = true := by
        cases hr : s.is_running
        · exact absurd hr hrun
        · rfl
      simp [RVCServer.submit_job, ht] at he
    · intro hnot
      exact ⟨"Server not running", by simp [RVCServer.submit_job, hnot]⟩
  · intro ht
    have hok : s.submit_job inp out ps fm ir fr rs rmr pr = .ok (s.job_counter,
        { s with job_counter := toCInt (s.job_counter + 1),
                 job_queue := s.job_queue ++
                   [some { job_id := s.job_counter, input_audio_path := inp,
                           output_audio_path := out, pitch_shift := ps, f0_method := fm,
                           index_rate := ir, filter_radius := fr, resample_sr := rs,
                           rms_mix_rate := rmr, protect := pr }] }) := by
      simp [RVCServer.submit_job, ht]
    exact ⟨_, hok, rfl, by simpa using ht⟩
  · intro ht h0 hb
    rw [hmany n s ht (by rw [h0]) (by rw [h0]; simpa using hb)]
    simp [h0]

/-- C6 amended claim witness: on a fresh non-running server `submit_job`
raises; on a fresh running server (counter 0, well below the wrap bound)
three successive `submit_job` calls return ids `0, 1, 2`. -/
theorem submit_job_spec_witness :
    (∃ e, (RVCServer.init "SilverWolf.pth" 2).submit_job
      "in.wav" "out.wav" 0 "rmvpe" 1 3 0 1 1 = .error e) ∧
    (({ RVCServer.init "SilverWolf.pth" 2 with is_running := true } : RVCServer).submitMany
      "in.wav" "out.wav" 0 "rmvpe" 1 3 0 1 1 3).1 = [0, 1, 2] := by
  constructor
  · exact (submit_job_spec (RVCServer.init "SilverWolf.pth" 2)
      "in.wav" "out.wav" 0 "rmvpe" 1 3 0 1 1 0).1.mpr rfl
  · exact ((submit_job_spec
      ({ RVCServer.init "SilverWolf.pth" 2 with is_running := true } : RVCServer)
      "in.wav" "out.wav" 0 "rmvpe" 1 3 0 1 1 3).2.2.2 rfl rfl (by norm_num)).trans
      (by decide)

/-- Measure for the `get_all_results` polling loop: how many one-second polls
fit in the remaining time. -/
theorem ceil_toNat_sub_min_lt (r : ℚ) (hr : 0 < r) :
    (⌈r - min r 1⌉).toNat < (⌈r⌉).toNat := by
  by_cases h1 : r ≤ 1
  · rw [min_eq_left h1, sub_self]
    have hpos : 0 < ⌈r⌉ := Int.ceil_pos.mpr hr
    simp only [Int.ceil_zero]
    omega
  · push_neg at h1
    rw [min_eq_right (le_of_lt h1)]
    have hc : ⌈r - 1⌉ = ⌈r⌉ - 1 := by
      have := Int.ceil_sub_int r (1 : ℤ)
      simpa using this
    have h2 : 1 < ⌈r⌉ := Int.lt_ceil.mpr (by exact_mod_cast h1)
    omega

/-- Polling loop of `RVCServer.get_all_results` (rvc_server.py, lines
394-418): while fewer than `expected` results are collected, compute
`remaining = timeout - elapsed`; if it is not positive, stop (returning the
partial list); otherwise call `get_result(timeout=min(remaining, 1.0))` and
advance the clock by the time that call took.  The oracle `polls k` gives the
k-th `get_result` call's outcome: `none` means the result queue stayed empty
for the whole wait (`queue.get` raises `Empty` after exactly the requested
wait, and `get_result` turns that into `None`); `some (r, d)` means result
`r` arrived after `d` seconds of the wait (clamped into `[0, wait]`, since
`queue.get` returns no later than its timeout).  Returns the collected
results together with the total elapsed time. -/
def RVCServer.getAllResultsGo (polls : ℕ → Option (RVCResult × ℚ)) (expected : ℕ)
    (timeout : ℚ) (k : ℕ) (acc : List RVCResult) (elapsed : ℚ) :
    List RVCResult × ℚ :=
  if acc.length < expected then
    if hrem : timeout - elapsed ≤ 0 then (acc, elapsed)
    else
      match polls k with
      | none =>
        RVCServer.getAllResultsGo polls expected timeout (k + 1) acc
          (elapsed + min (timeout - elapsed) 1)
      | some (r, d) =>
        RVCServer.getAllResultsGo polls expected timeout (k + 1) (acc ++ [r])
          (elapsed + min (max d 0) (min (timeout - elapsed) 1))
  else (acc, elapsed)
termination_by (expected - acc.length, (⌈timeout - elapsed⌉).toNat)
decreasing_by
  · apply Prod.Lex.right
    have hr : 0 < timeout - elapsed := lt_of_not_ge hrem
    have hstep : timeout - (elapsed + min (timeout - elapsed) 1) =
        timeout - elapsed - min (timeout - elapsed) 1 := by ring
    rw [hstep]
    exact ceil_toNat_sub_min_lt _ hr
  · apply Prod.Lex.left
    simp only [List.length_append, List.length_cons, List.length_nil]
    omega

/-- `RVCServer.get_all_results(expected_count, timeout)` (lines 394-418),
started with an empty result list and zero elapsed time. -/
def RVCServer.get_all_results (polls : ℕ → Option (RVCResult × ℚ)) (expected : ℕ)
    (timeout : ℚ) : List RVCResult × ℚ :=
  RVCServer.getAllResultsGo polls expected timeout 0 [] 0

/-- The polling loop never collects more than `expected` results. -/
theorem getAllResultsGo_length_le (polls : ℕ → Option (RVCResult × ℚ)) (expected : ℕ)
    (timeout : ℚ) : ∀ (k : ℕ) (acc : List RVCResult) (elapsed : ℚ),
    acc.length ≤ expected →
    (RVCServer.getAllResultsGo polls expected timeout k acc elapsed).1.length ≤ expected := by
  intro k acc elapsed
  induction k, acc, elapsed using RVCServer.getAllResultsGo.induct polls expected timeout with
  | case1 k acc elapsed hlt hrem =>
    intro _
    rw [RVCServer.getAllResultsGo, if_pos hlt, dif_pos hrem]
    exact le_of_lt hlt
  | case2 k acc elapsed hlt hrem hpoll ih =>
    intro _
    rw [RVCServer.getAllResultsGo, if_pos hlt, dif_neg hrem, hpoll]
    exact ih (le_of_lt hlt)
  | case3 k acc elapsed hlt hrem r d hpoll ih =>
    intro _
    rw [RVCServer.getAllResultsGo, if_pos hlt, dif_neg hrem, hpoll]
    exact ih (by simpa using hlt)
  | case4 k acc elapsed hge =>
    intro h
    rw [RVCServer.getAllResultsGo, if_neg hge]
    exact h

/-- The polling loop never runs the clock past the timeout: the final elapsed
time is at most `max elapsed timeout`. -/
theorem getAllResultsGo_elapsed_le (polls : ℕ → Option (RVCResult × ℚ)) (expected : ℕ)
    (timeout : ℚ) : ∀ (k : ℕ) (acc : List RVCResult) (elapsed : ℚ),
    (RVCServer.getAllResultsGo polls expected timeout k acc elapsed).2 ≤
      max elapsed timeout := by
  intro k acc elapsed
  induction k, acc, elapsed using RVCServer.getAllResultsGo.induct polls expected timeout with
  | case1 k acc elapsed hlt hrem =>
    rw [RVCServer.getAllResultsGo, if_pos hlt, dif_pos hrem]
    exact le_max_left _ _
  | case2 k acc elapsed hlt hrem hpoll ih =>
    rw [RVCServer.getAllResultsGo, if_pos hlt, dif_neg hrem, hpoll]
    have hr : 0 < timeout - elapsed := lt_of_not_ge hrem
    have hle : elapsed + min (timeout - elapsed) 1 ≤ timeout := by
      have : min (timeout - elapsed) 1 ≤ timeout - elapsed := min_le_left _ _
      linarith
    calc (RVCServer.getAllResultsGo polls expected timeout (k + 1) acc
            (elapsed + min (timeout - elapsed) 1)).2
        ≤ max (elapsed + min (timeout - elapsed) 1) timeout := ih
      _ = timeout := max_eq_right hle
      _ ≤ max elapsed timeout := le_max_right _ _
  | case3 k acc elapsed hlt hrem r d hpoll ih =>
    rw [RVCServer.getAllResultsGo, if_pos hlt, dif_neg hrem, hpoll]
    have hr : 0 < timeout - elapsed := lt_of_not_ge hrem
    have hle : elapsed + min (max d 0) (min (timeout - elapsed) 1) ≤ timeout := by
      have h1 : min (max d 0) (min (timeout - elapsed) 1) ≤ min (timeout - elapsed) 1 :=
        min_le_right _ _
      have h2 : min (timeout - elapsed) 1 ≤ timeout - elapsed := min_le_left _ _
      linarith
    calc (RVCServer.getAllResultsGo polls expected timeout (k + 1) (acc ++ [r])
            (elapsed + min (max d 0) (min (timeout - elapsed) 1))).2
        ≤ max (elapsed + min (max d 0) (min (timeout - elapsed) 1)) timeout := ih
      _ = timeout := max_eq_right hle
      _ ≤ max elapsed timeout := le_max_right _ _
  | case4 k acc elapsed hge =>
    rw [RVCServer.getAllResultsGo, if_neg hge]
    exact le_max_left _ _

/-- When results are always already waiting in the queue (every poll returns
one with no delay) and time remains, the loop collects exactly `expected`
results. -/
theorem getAllResultsGo_exact (polls : ℕ → Option (RVCResult × ℚ)) (expected : ℕ)
    (timeout : ℚ) (hall : ∀ j, ∃ r, polls j = some (r, 0)) :
    ∀ (k : ℕ) (acc : List RVCResult) (elapsed : ℚ),
    acc.length ≤ expected → elapsed < timeout →
    (RVCServer.getAllResultsGo polls expected timeout k acc elapsed).1.length = expected := by
  intro k acc elapsed
  induction k, acc, elapsed using RVCServer.getAllResultsGo.induct polls expected timeout with
  | case1 k acc elapsed hlt hrem =>
    intro _ htime
    exact absurd hrem (not_le.mpr (by linarith))
  | case2 k acc elapsed hlt hrem hpoll ih =>
    intro _ _
    obtain ⟨r, hr⟩ := hall k
    rw [hpoll] at hr
    exact Option.noConfusion hr
  | case3 k acc elapsed hlt hrem r d hpoll ih =>
    intro _ htime
    obtain ⟨r', hr'⟩ := hall k
    rw [hpoll] at hr'
    injection hr' with h1
    injection h1 with hrr hd
    subst hd
    have hzero : min (max (0:ℚ) 0) (min (timeout - elapsed) 1) = 0 := by
      have hr0 : 0 < timeout - elapsed := lt_of_not_ge hrem
      have hpos : (0:ℚ) < min (timeout - elapsed) 1 := lt_min hr0 one_pos
      simp [min_eq_left (le_of_lt hpos)]
    rw [RVCServer.getAllResultsGo, if_pos hlt, dif_neg hrem, hpoll]
    show (RVCServer.getAllResultsGo polls expected timeout (k + 1) (acc ++ [r])
        (elapsed + min (max (0:ℚ) 0) (min (timeout - elapsed) 1))).1.length = expected
    have hih := ih
      (by simp only [List.length_append, List.length_cons, List.length_nil]; omega)
      (by rw [hzero, add_zero]; exact htime)
    rw [hzero, add_zero] at hih
    rw [hzero, add_zero]
    exact hih
  | case4 k acc elapsed hge =>
    intro hle _
    rw [RVCServer.getAllResultsGo, if_neg hge]
    show acc.length = expected
    omega

/-- C5: `get_all_results(expected_count, timeout)` never raises (it is a
total function returning the collected list), returns at most
`expected_count` results, never runs past its total timeout (for a
nonnegative timeout the elapsed time on return is at most the timeout, and
it is never more than `max 0 timeout`), returns the partial list collected
so far when the timeout elapses, and returns exactly `expected_count`
results when that many arrive in time (here: when every poll finds a result
already queued and the timeout is positive). -/
theorem get_all_results_spec (polls : ℕ → Option (RVCResult × ℚ)) (expected : ℕ)
    (timeout : ℚ) :
    (RVCServer.get_all_results polls expected timeout).1.length ≤ expected ∧
    (RVCServer.get_all_results polls expected timeout).2 ≤ max 0 timeout ∧
    ((∀ j, ∃ r, polls j = some (r, 0)) → 0 < timeout →
      (RVCServer.get_all_results polls expected timeout).1.length = expected) := by
  refine ⟨?_, ?_, ?_⟩
  · exact getAllResultsGo_length_le polls expected timeout 0 [] 0 (by simp)
  · exact getAllResultsGo_elapsed_le polls expected timeout 0 [] 0
  · intro hall htime
    exact getAllResultsGo_exact polls expected timeout hall 0 [] 0 (by simp) htime

/-- C5 witness: with two results already queued (zero arrival delay) and a
one-second timeout, `get_all_results(2, 1)` returns exactly 2 results. -/
theorem get_all_results_spec_witness :
    (RVCServer.get_all_results
      (fun _ => some ({ job_id := 0, success := true, output_path := none,
                        error := none, worker_id := 0, processing_time := 0 }, 0))
      2 1).1.length = 2 := by
  exact (get_all_results_spec
    (fun _ => some ({ job_id := 0, success := true, output_path := none,
                      error := none, worker_id := 0, processing_time := 0 }, 0))
    2 1).2.2 (fun j => ⟨_, rfl⟩) one_pos

/-! ## `TTSRVCPipeline.process` result mapping (src/rvc/processing/pipeline.py) -/

/-- `PipelineResult` dataclass (pipeline.py, lines 44-56). -/
structure PipelineResult where
  fragment_id : ℕ
  sentence : String
  tts_path : Option String
  rvc_path : Option String
  tts_success : Bool
  rvc_success : Bool
  tts_time : ℚ
  rvc_time : ℚ
  rvc_worker_id : ℤ
  error : Option String
deriving DecidableEq

/-- `PipelineResult(fragment_id=i, sentence="")` with the dataclass defaults
(line 283). -/
def PipelineResult.mkEmpty (i : ℕ) : PipelineResult :=
  { fragment_id := i, sentence := "", tts_path := none, rvc_path := none,
    tts_success := false, rvc_success := false, tts_time := 0, rvc_time := 0,
    rvc_worker_id := -1, error := none }

/-- `results = [PipelineResult(fragment_id=i, sentence="") for i in
range(num_sentences)]` (line 283). -/
def initialResults (n : ℕ) : List PipelineResult :=
  (List.range n).map PipelineResult.mkEmpty

/-- Job ids handed out during one `process()` call.  The producer
(`_tts_producer`, lines 173-218) pushes `(i, path)` for units `0, 1, …` in
order; the submitter (`_rvc_submitter`, lines 220-252) drains the queue in
that order, skips TTS-failed units, and calls `server.submit_job` for the
rest, so each submitted unit receives the server's next global counter value
(`submit_job`, lines 347-352; the counter is **not** reset between
`process()` calls).  Given the counter value `c` at the start and the
per-unit TTS success flags (unit indices starting at `idx`), this returns
the `(unit index, job id)` pairs in submission order. -/
def submitterJobIds (c : ℕ) (idx : ℕ) : List Bool → List (ℕ × ℕ)
  | [] => []
  | ok :: rest =>
    if ok then (idx, c) :: submitterJobIds (c + 1) (idx + 1) rest
    else submitterJobIds c (idx + 1) rest

/-- One iteration of the result-mapping loop (pipeline.py, lines 348-356):
`idx = rvc_result.job_id` (an integer drawn from the server's `c_int`
counter); if `0 <= idx < len(results)`, fill `results[idx]`'s rvc fields
from the result (and its error field when the conversion failed with an
error message); otherwise the result is dropped. -/
def applyRVCResult (results : List PipelineResult) (r : RVCResult) :
    List PipelineResult :=
  if h : 0 ≤ r.job_id ∧ r.job_id < (results.length : ℤ) then
    results.set r.job_id.toNat
      (let old := results.get ⟨r.job_id.toNat, by omega⟩
       { old with rvc_success := r.success, rvc_path := r.output_path,
                  rvc_time := r.processing_time, rvc_worker_id := r.worker_id,
                  error := if r.success = false ∧ r.error.isSome then r.error
                           else old.error })
  else results

/-- The full result-mapping loop (`for rvc_result in rvc_results: …`,
pipeline.py, lines 348-356). -/
def mapResults (results : List PipelineResult) (rvc_results : List RVCResult) :
    List PipelineResult :=
  rvc_results.foldl applyRVCResult results

/-- C3 (code bug): the mapping `idx = rvc_result.job_id` identifies a
result's originating unit with its server-global job id.  On a second
`process()` call on the same still-running server the counter does not
restart, so the ids no longer coincide with unit indices.  Failing input:
second call with one sentence whose TTS succeeds, after a first call that
submitted one job (counter = 1).  The unit's conversion job gets id 1, the
returned result has `job_id = 1`, which is outside the one-element results
list — so the mapping loop leaves the unit's `rvc_*` fields untouched
(`rvc_success` stays `false`) and the successful conversion is lost.
Moreover, even within a first call, a TTS failure shifts the ids: with flags
`[False, True]` (counter 0) unit 1's job gets id 0, so unit 1's result is
written into `results[0]` — the wrong unit. -/
theorem pipeline_mapping_job_id_bug :
    submitterJobIds 1 0 [true] = [(0, 1)] ∧
    mapResults (initialResults 1)
      [{ job_id := 1, success := true, output_path := some "fragment_0.wav",
         error := none, worker_id := 0, processing_time := 0 }] =
      initialResults 1 ∧
    ((initialResults 1).map (fun r => r.rvc_success)) = [false] ∧
    submitterJobIds 0 0 [false, true] = [(1, 0)] ∧
    (mapResults (initialResults 2)
      [{ job_id := 0, success := true, output_path := some "fragment_1.wav",
         error := none, worker_id := 0, processing_time := 0 }]).map
        (fun r => r.rvc_success) = [true, false] := by
  refine ⟨rfl, ?_, rfl, rfl, ?_⟩
  · rfl
  · rfl

/-! ## `WorkerManager` (src/rvc/processing/worker_manager.py) -/

theorem mem_of_posLookup_some {β : Type} (l : List (ℕ × β)) (p : ℕ) (v : β)
    (h : posLookup l p = some v) : (p, v) ∈ l := by
  induction l with
  | nil => simp [posLookup] at h
  | cons hd tl ih =>
    obtain ⟨k, w⟩ := hd
    by_cases hk : p = k
    · subst hk
      simp only [posLookup, if_pos rfl] at h
      injection h with h1
      simp [h1]
    · simp only [posLookup, if_neg hk] at h
      exact List.mem_cons_of_mem _ (ih h)

/-- One worker record of the manager (worker_manager.py, lines 56-61): the
source spreads it over three dicts keyed by `worker_id` —
`*_workers[wid] = {'thread': …, 'last_used': t}`, `*_job_queues[wid]`,
`*_active[wid]` — which the embedding collapses into one record per id.
`queueId` identifies the `Queue()` object created for this worker, so that
"the same queue" is expressible. -/
structure WorkerRec where
  queueId : ℕ
  last_used : ℚ
  active : Bool
deriving DecidableEq

/-- Manager state (worker_manager.py, lines 37-68).  `next_queue_id`
generates fresh `Queue()` identities; `sentineled` records the queue ids
onto which the `None` shutdown sentinel has been put. -/
structure WorkerManager where
  tts_workers : List (ℕ × WorkerRec)
  rvc_workers : List (ℕ × WorkerRec)
  next_queue_id : ℕ
  sentineled : List ℕ
deriving DecidableEq

/-- `WorkerManager._shutdown_tts_worker` (lines 113-119, called with the
manager lock held): put the `None` sentinel on the worker's job queue, join
the thread, and delete the worker's entries from all three maps — one
critical section. -/
def WorkerManager.shutdownTTSWorker (m : WorkerManager) (wid : ℕ) : WorkerManager :=
  match posLookup m.tts_workers wid with
  | some rec =>
    { m with sentineled := m.sentineled ++ [rec.queueId],
             tts_workers := posErase m.tts_workers wid }
  | none => m

/-- `WorkerManager._shutdown_rvc_worker` (lines 121-127). -/
def WorkerManager.shutdownRVCWorker (m : WorkerManager) (wid : ℕ) : WorkerManager :=
  match posLookup m.rvc_workers wid with
  | some rec =>
    { m with sentineled := m.sentineled ++ [rec.queueId],
             rvc_workers := posErase m.rvc_workers wid }
  | none => m

/-- Loop body of the idle monitor for one TTS worker id (`_monitor_workers`,
lines 87-96): if the worker exists, is not active, and has been idle for more
than `unload_delay` seconds, shut it down. -/
def WorkerManager.sweepTTSStep (delay now : ℚ) (st : WorkerManager) (wid : ℕ) :
    WorkerManager :=
  match posLookup st.tts_workers wid with
  | some rec =>
    if rec.active = false ∧ delay < now - rec.last_used then st.shutdownTTSWorker wid
    else st
  | none => st

/-- Loop body of the idle monitor for one RVC worker id (lines 99-108). -/
def WorkerManager.sweepRVCStep (delay now : ℚ) (st : WorkerManager) (wid : ℕ) :
    WorkerManager :=
  match posLookup st.rvc_workers wid with
  | some rec =>
    if rec.active = false ∧ delay < now - rec.last_used then st.shutdownRVCWorker wid
    else st
  | none => st

/-- TTS half of the idle-monitor body (`_monitor_workers`, lines 86-96):
`for worker_id in list(self.tts_workers.keys())` — the key list is snapshotted
before the loop — shut down each worker that is inactive and idle for more
than `unload_delay` seconds. -/
def WorkerManager.monitorSweepTTS (m : WorkerManager) (delay now : ℚ) : WorkerManager :=
  (posKeys m.tts_workers).foldl (WorkerManager.sweepTTSStep delay now) m

/-- RVC half of the idle-monitor body (lines 98-108). -/
def WorkerManager.monitorSweepRVC (m : WorkerManager) (delay now : ℚ) : WorkerManager :=
  (posKeys m.rvc_workers).foldl (WorkerManager.sweepRVCStep delay now) m

/-- One tick of the idle monitor (`_monitor_workers`, lines 75-111): when
`unload_delay <= 0` the tick only sleeps (lines 79-81, no unload checks);
otherwise it sweeps the TTS workers and then the RVC workers under the
manager lock, at the current time `now`. -/
def WorkerManager.monitorTick (m : WorkerManager) (delay now : ℚ) : WorkerManager :=
  if delay ≤ 0 then m
  else (m.monitorSweepTTS delay now).monitorSweepRVC delay now

/-- `WorkerManager.get_tts_worker` (lines 129-174): under the manager lock,
if a record exists for `wid`, refresh `last_used`, set the active flag and
return its existing job queue; otherwise create a fresh queue, register the
record (active, `last_used = now`) and return the new queue. -/
def WorkerManager.get_tts_worker (m : WorkerManager) (wid : ℕ) (now : ℚ) :
    ℕ × WorkerManager :=
  match posLookup m.tts_workers wid with
  | some rec =>
    (rec.queueId,
     { m with tts_workers :=
         posInsert m.tts_workers wid { rec with last_used := now, active := true } })
  | none =>
    (m.next_queue_id,
     let rec0 : WorkerRec :=
       { queueId := m.next_queue_id, last_used := now, active := true }
     { m with tts_workers := posInsert m.tts_workers wid rec0,
              next_queue_id := m.next_queue_id + 1 })

/-- `WorkerManager.get_rvc_worker` (lines 176-212); identical record logic. -/
def WorkerManager.get_rvc_worker (m : WorkerManager) (wid : ℕ) (now : ℚ) :
    ℕ × WorkerManager :=
  match posLookup m.rvc_workers wid with
  | some rec =>
    (rec.queueId,
     { m with rvc_workers :=
         posInsert m.rvc_workers wid { rec with last_used := now, active := true } })
  | none =>
    (m.next_queue_id,
     let rec0 : WorkerRec :=
       { queueId := m.next_queue_id, last_used := now, active := true }
     { m with rvc_workers := posInsert m.rvc_workers wid rec0,
              next_queue_id := m.next_queue_id + 1 })

/-- `WorkerManager.shutdown` (lines 294-313): under the manager lock, put one
`None` sentinel on every TTS and RVC job queue and join the worker threads —
but, unlike the per-worker `_shutdown_*_worker` helpers, it deletes nothing:
`tts_workers`, `rvc_workers` and the queue maps keep all their entries. -/
def WorkerManager.shutdown (m : WorkerManager) : WorkerManager :=
  { m with sentineled := m.sentineled ++
      m.tts_workers.map (fun e => e.2.queueId) ++
      m.rvc_workers.map (fun e => e.2.queueId) }

/-- List-level effect of the idle sweep: processing worker ids `L` over a
record map erases exactly those listed ids whose record is inactive and stale. -/
def sweepList (delay now : ℚ) : List ℕ → List (ℕ × WorkerRec) → List (ℕ × WorkerRec)
  | [], l => l
  | wid :: L, l =>
    match posLookup l wid with
    | some rec =>
      if rec.active = false ∧ delay < now - rec.last_used then
        sweepList delay now L (posErase l wid)
      else sweepList delay now L l
    | none => sweepList delay now L l

theorem sweepTTSStep_rvc_eq (delay now : ℚ) (st : WorkerManager) (wid : ℕ) :
    (WorkerManager.sweepTTSStep delay now st wid).rvc_workers = st.rvc_workers := by
  simp only [WorkerManager.sweepTTSStep, WorkerManager.shutdownTTSWorker]
  split
  · split
    · split <;> rfl
    · rfl
  · rfl

theorem sweepRVCStep_tts_eq (delay now : ℚ) (st : WorkerManager) (wid : ℕ) :
    (WorkerManager.sweepRVCStep delay now st wid).tts_workers = st.tts_workers := by
  simp only [WorkerManager.sweepRVCStep, WorkerManager.shutdownRVCWorker]
  split
  · split
    · split <;> rfl
    · rfl
  · rfl

theorem foldl_sweepTTSStep_rvc_eq (delay now : ℚ) :
    ∀ (L : List ℕ) (st : WorkerManager),
      ((L.foldl (WorkerManager.sweepTTSStep delay now) st)).rvc_workers = st.rvc_workers := by
  intro L
  induction L with
  | nil => intro st; rfl
  | cons a L' ih =>
    intro st
    rw [List.foldl_cons, ih, sweepTTSStep_rvc_eq]

theorem foldl_sweepRVCStep_tts_eq (delay now : ℚ) :
    ∀ (L : List ℕ) (st : WorkerManager),
      ((L.foldl (WorkerManager.sweepRVCStep delay now) st)).tts_workers = st.tts_workers := by
  intro L
  induction L with
  | nil => intro st; rfl
  | cons a L' ih =>
    intro st
    rw [List.foldl_cons, ih, sweepRVCStep_tts_eq]

theorem foldl_sweepTTSStep_tts_eq (delay now : ℚ) :
    ∀ (L : List ℕ) (st : WorkerManager),
      ((L.foldl (WorkerManager.sweepTTSStep delay now) st)).tts_workers =
        sweepList delay now L st.tts_workers := by
  intro L
  induction L with
  | nil => intro st; rfl
  | cons a L' ih =>
    intro st
    rw [List.foldl_cons, ih]
    rcases hla : posLookup st.tts_workers a with _ | rec
    · have hstep : WorkerManager.sweepTTSStep delay now st a = st := by
        simp [WorkerManager.sweepTTSStep, hla]
      rw [hstep]
      simp [sweepList, hla]
    · by_cases hcond : rec.active = false ∧ delay < now - rec.last_used
      · have hstep : (WorkerManager.sweepTTSStep delay now st a).tts_workers =
            posErase st.tts_workers a := by
          simp [WorkerManager.sweepTTSStep, hla, hcond, WorkerManager.shutdownTTSWorker]
        rw [hstep]
        simp [sweepList, hla, hcond]
      · have hstep : WorkerManager.sweepTTSStep delay now st a = st := by
          simp [WorkerManager.sweepTTSStep, hla, hcond]
        rw [hstep]
        simp [sweepList, hla, hcond]

theorem foldl_sweepRVCStep_rvc_eq (delay now : ℚ) :
    ∀ (L : List ℕ) (st : WorkerManager),
      ((L.foldl (WorkerManager.sweepRVCStep delay now) st)).rvc_workers =
        sweepList delay now L st.rvc_workers := by
  intro L
  induction L with
  | nil => intro st; rfl
  | cons a L' ih =>
    intro st
    rw [List.foldl_cons, ih]
    rcases hla : posLookup st.rvc_workers a with _ | rec
    · have hstep : WorkerManager.sweepRVCStep delay now st a = st := by
        simp [WorkerManager.sweepRVCStep, hla]
      rw [hstep]
      simp [sweepList, hla]
    · by_cases hcond : rec.active = false ∧ delay < now - rec.last_used
      · have hstep : (WorkerManager.sweepRVCStep delay now st a).rvc_workers =
            posErase st.rvc_workers a := by
          simp [WorkerManager.sweepRVCStep, hla, hcond, WorkerManager.shutdownRVCWorker]
        rw [hstep]
        simp [sweepList, hla, hcond]
      · have hstep : WorkerManager.sweepRVCStep delay now st a = st := by
          simp [WorkerManager.sweepRVCStep, hla, hcond]
        rw [hstep]
        simp [sweepList, hla, hcond]

/-- Lookup characterization of the sweep: a record survives iff it is not
listed, or is active, or was used within the last `delay` seconds. -/
theorem sweepList_lookup (delay now : ℚ) :
    ∀ (L : List ℕ) (l : List (ℕ × WorkerRec)), (posKeys l).Nodup → ∀ wid,
      posLookup (sweepList delay now L l) wid =
        match posLookup l wid with
        | some rec =>
          if wid ∈ L ∧ rec.active = false ∧ delay < now - rec.last_used then none
          else some rec
        | none => none := by
  intro L
  induction L with
  | nil =>
    intro l _ wid
    rcases hlw : posLookup l wid with _ | recw <;> simp [sweepList, hlw]
  | cons a L' ih =>
    intro l hnd wid
    rcases hla : posLookup l a with _ | rec
    · rw [show sweepList delay now (a :: L') l = sweepList delay now L' l by
        simp [sweepList, hla]]
      rw [ih l hnd wid]
      rcases hlw : posLookup l wid with _ | recw
      · rfl
      · have hwa : wid ≠ a := fun h => by
          rw [h, hla] at hlw
          exact Option.noConfusion hlw
        simp [List.mem_cons, hwa]
    · by_cases hcond : rec.active = false ∧ delay < now - rec.last_used
      · rw [show sweepList delay now (a :: L') l = sweepList delay now L' (posErase l a) by
          simp [sweepList, hla, hcond]]
        rw [ih (posErase l a) (posKeys_erase_nodup _ _ hnd) wid]
        by_cases hwa : wid = a
        · subst hwa
          rw [posLookup_erase_self l wid hnd, hla]
          simp [hcond]
        · rw [posLookup_erase_ne l a wid hwa]
          rcases hlw : posLookup l wid with _ | recw
          · rfl
          · simp [List.mem_cons, hwa]
      · rw [show sweepList delay now (a :: L') l = sweepList delay now L' l by
          simp [sweepList, hla, hcond]]
        rw [ih l hnd wid]
        rcases hlw : posLookup l wid with _ | recw
        · rfl
        · by_cases hwa : wid = a
          · subst hwa
            rw [hla] at hlw
            injection hlw with hrec
            subst hrec
            simp [hcond]
          · simp [List.mem_cons, hwa]

/-- C7: the idle monitor's unload rule.  When `unload_delay = D > 0`, a tick
at time `now` removes exactly the workers that are inactive and whose
`last_used` is more than `D` seconds old; a worker that is active, or was
used within the last `D` seconds, survives the tick.  When `D ≤ 0` the tick
removes nothing (workers persist).  Stated for both the TTS and the RVC
worker maps. -/
theorem monitor_idle_unload_spec (m : WorkerManager) (delay now : ℚ)
    (hnd1 : (posKeys m.tts_workers).Nodup) (hnd2 : (posKeys m.rvc_workers).Nodup) :
    (delay ≤ 0 → m.monitorTick delay now = m) ∧
    (0 < delay → ∀ wid rec, posLookup m.tts_workers wid = some rec →
      ((rec.active = false ∧ delay < now - rec.last_used →
          posLookup (m.monitorTick delay now).tts_workers wid = none) ∧
       (rec.active = true ∨ now - rec.last_used ≤ delay →
          posLookup (m.monitorTick delay now).tts_workers wid = some rec))) ∧
    (0 < delay → ∀ wid rec, posLookup m.rvc_workers wid = some rec →
      ((rec.active = false ∧ delay < now - rec.last_used →
          posLookup (m.monitorTick delay now).rvc_workers wid = none) ∧
       (rec.active = true ∨ now - rec.last_used ≤ delay →
          posLookup (m.monitorTick delay now).rvc_workers wid = some rec))) := by
  refine ⟨?_, ?_, ?_⟩
  · intro hle
    simp [WorkerManager.monitorTick, hle]
  · intro hpos wid rec hlook
    have hne : ¬ delay ≤ 0 := not_le.mpr hpos
    have htts : (m.monitorTick delay now).tts_workers =
        sweepList delay now (posKeys m.tts_workers) m.tts_workers := by
      rw [WorkerManager.monitorTick, if_neg hne, WorkerManager.monitorSweepRVC,
        foldl_sweepRVCStep_tts_eq, WorkerManager.monitorSweepTTS,
        foldl_sweepTTSStep_tts_eq]
    rw [htts, sweepList_lookup delay now _ _ hnd1 wid, hlook]
    constructor
    · intro hc
      simp [mem_keys_of_posLookup_some _ _ _ hlook, hc]
    · intro hor
      have hcf : ¬ (rec.active = false ∧ delay < now - rec.last_used) := by
        rintro ⟨hact, hlt⟩
        rcases hor with h1 | h1
        · rw [h1] at hact
          exact Bool.noConfusion hact
        · exact absurd hlt (not_lt.mpr h1)
      simp [hcf]
  · intro hpos wid rec hlook
    have hne : ¬ delay ≤ 0 := not_le.mpr hpos
    have hrvc : (m.monitorTick delay now).rvc_workers =
        sweepList delay now (posKeys m.rvc_workers) m.rvc_workers := by
      have h1 : (m.monitorSweepTTS delay now).rvc_workers = m.rvc_workers := by
        rw [WorkerManager.monitorSweepTTS, foldl_sweepTTSStep_rvc_eq]
      rw [WorkerManager.monitorTick, if_neg hne, WorkerManager.monitorSweepRVC,
        foldl_sweepRVCStep_rvc_eq, h1]
    rw [hrvc, sweepList_lookup delay now _ _ hnd2 wid, hlook]
    constructor
    · intro hc
      simp [mem_keys_of_posLookup_some _ _ _ hlook, hc]
    · intro hor
      have hcf : ¬ (rec.active = false ∧ delay < now - rec.last_used) := by
        rintro ⟨hact, hlt⟩
        rcases hor with h1 | h1
        · rw [h1] at hact
          exact Bool.noConfusion hact
        · exact absurd hlt (not_lt.mpr h1)
      simp [hcf]

/-- C7 witness: with `unload_delay = 1` a monitor tick at time 5 removes the
inactive TTS worker last used at time 0, keeps the active RVC worker, and
with `unload_delay = 0` the same tick removes nothing. -/
theorem monitor_idle_unload_spec_witness :
    posLookup ((⟨[(0, ⟨7, 0, false⟩)], [(1, ⟨8, 0, true⟩)], 9, []⟩ :
        WorkerManager).monitorTick 1 5).tts_workers 0 = none ∧
    posLookup ((⟨[(0, ⟨7, 0, false⟩)], [(1, ⟨8, 0, true⟩)], 9, []⟩ :
        WorkerManager).monitorTick 1 5).rvc_workers 1 = some ⟨8, 0, true⟩ ∧
    (⟨[(0, ⟨7, 0, false⟩)], [(1, ⟨8, 0, true⟩)], 9, []⟩ :
        WorkerManager).monitorTick 0 5 =
      ⟨[(0, ⟨7, 0, false⟩)], [(1, ⟨8, 0, true⟩)], 9, []⟩ := by
  refine ⟨?_, ?_, ?_⟩
  · exact ((monitor_idle_unload_spec
      (⟨[(0, ⟨7, 0, false⟩)], [(1, ⟨8, 0, true⟩)], 9, []⟩ : WorkerManager)
      1 5 (by decide) (by decide)).2.1
      (by norm_num) 0 ⟨7, 0, false⟩ (by decide)).1 ⟨rfl, by norm_num⟩
  · exact ((monitor_idle_unload_spec
      (⟨[(0, ⟨7, 0, false⟩)], [(1, ⟨8, 0, true⟩)], 9, []⟩ : WorkerManager)
      1 5 (by decide) (by decide)).2.2
      (by norm_num) 1 ⟨8, 0, true⟩ (by decide)).2 (Or.inl rfl)
  · exact (monitor_idle_unload_spec
      (⟨[(0, ⟨7, 0, false⟩)], [(1, ⟨8, 0, true⟩)], 9, []⟩ : WorkerManager)
      0 5 (by decide) (by decide)).1 le_rfl

/-- C8 counterexample: the full `WorkerManager.shutdown()` (lines 294-313)
sends the `None` sentinel to every worker's queue but removes no record from
the maps.  Starting from a manager with one TTS worker (id 0, queue 5),
after `shutdown()` the sentinel has been sent to queue 5, yet the record is
still in `tts_workers`, and a subsequent `get_tts_worker(0)` returns queue 5
— the very queue that already received the sentinel — for new submissions.
This falsifies the claim that every sentinel send is paired with record
removal in the same critical section. -/
theorem manager_shutdown_leaves_records_cex :
    ((⟨[(0, ⟨5, 0, false⟩)], [], 6, []⟩ : WorkerManager).shutdown.sentineled = [5]) ∧
    (posLookup (⟨[(0, ⟨5, 0, false⟩)], [], 6, []⟩ :
        WorkerManager).shutdown.tts_workers 0 = some ⟨5, 0, false⟩) ∧
    (((⟨[(0, ⟨5, 0, false⟩)], [], 6, []⟩ :
        WorkerManager).shutdown.get_tts_worker 0 9).1 = 5) := by
  refine ⟨rfl, rfl, rfl⟩

/-- C8 amended: the per-worker shutdown helpers `_shutdown_tts_worker` /
`_shutdown_rvc_worker` — the paths used by the idle monitor and by
`shutdown_tts_workers` / `shutdown_rvc_workers` — do send the sentinel and
remove the worker's record in the same critical section: afterwards the
record is gone, the sentineled queue id is recorded, and a `get_*_worker`
call for that id can only create a fresh queue, never return the sentineled
one (given that all queue ids in the maps were allocated below
`next_queue_id`).  The full `shutdown()` method is the exception shown in
the counterexample. -/
theorem shutdown_helper_removes_record (m : WorkerManager) (wid : ℕ)
    (rec : WorkerRec) (now : ℚ) :
    ((posKeys m.tts_workers).Nodup →
      (∀ e ∈ m.tts_workers, (Prod.snd e).queueId < m.next_queue_id) →
      posLookup m.tts_workers wid = some rec →
      posLookup (m.shutdownTTSWorker wid).tts_workers wid = none ∧
      rec.queueId ∈ (m.shutdownTTSWorker wid).sentineled ∧
      ((m.shutdownTTSWorker wid).get_tts_worker wid now).1 ≠ rec.queueId) ∧
    ((posKeys m.rvc_workers).Nodup →
      (∀ e ∈ m.rvc_workers, (Prod.snd e).queueId < m.next_queue_id) →
      posLookup m.rvc_workers wid = some rec →
      posLookup (m.shutdownRVCWorker wid).rvc_workers wid = none ∧
      rec.queueId ∈ (m.shutdownRVCWorker wid).sentineled ∧
      ((m.shutdownRVCWorker wid).get_rvc_worker wid now).1 ≠ rec.queueId) := by
  constructor
  · intro hnd hfresh hlook
    have hstep : m.shutdownTTSWorker wid =
        { m with sentineled := m.sentineled ++ [rec.queueId],
                 tts_workers := posErase m.tts_workers wid } := by
      simp [WorkerManager.shutdownTTSWorker, hlook]
    have herase : posLookup (posErase m.tts_workers wid) wid = none :=
      posLookup_erase_self m.tts_workers wid hnd
    refine ⟨?_, ?_, ?_⟩
    · rw [hstep]
      exact herase
    · rw [hstep]
      simp
    · have hget : ((m.shutdownTTSWorker wid).get_tts_worker wid now).1 =
          m.next_queue_id := by
        rw [hstep]
        simp [WorkerManager.get_tts_worker, herase]
      rw [hget]
      exact Ne.symm (ne_of_lt (hfresh (wid, rec) (mem_of_posLookup_some _ _ _ hlook)))
  · intro hnd hfresh hlook
    have hstep : m.shutdownRVCWorker wid =
        { m with sentineled := m.sentineled ++ [rec.queueId],
                 rvc_workers := posErase m.rvc_workers wid } := by
      simp [WorkerManager.shutdownRVCWorker, hlook]
    have herase : posLookup (posErase m.rvc_workers wid) wid = none :=
      posLookup_erase_self m.rvc_workers wid hnd
    refine ⟨?_, ?_, ?_⟩
    · rw [hstep]
      exact herase
    · rw [hstep]
      simp
    · have hget : ((m.shutdownRVCWorker wid).get_rvc_worker wid now).1 =
          m.next_queue_id := by
        rw [hstep]
        simp [WorkerManager.get_rvc_worker, herase]
      rw [hget]
      exact Ne.symm (ne_of_lt (hfresh (wid, rec) (mem_of_posLookup_some _ _ _ hlook)))

/-- C8 amended claim witness: on a concrete manager with one TTS worker
(queue 5) and one RVC worker (queue 7), the per-worker shutdown helpers
remove the records, record the sentinel, and a subsequent get returns a
fresh queue distinct from the sentineled one. -/
theorem shutdown_helper_removes_record_witness :
    (posLookup ((⟨[(0, ⟨5, 0, false⟩)], [(1, ⟨7, 0, false⟩)], 8, []⟩ :
        WorkerManager).shutdownTTSWorker 0).tts_workers 0 = none ∧
      5 ∈ ((⟨[(0, ⟨5, 0, false⟩)], [(1, ⟨7, 0, false⟩)], 8, []⟩ :
        WorkerManager).shutdownTTSWorker 0).sentineled ∧
      (((⟨[(0, ⟨5, 0, false⟩)], [(1, ⟨7, 0, false⟩)], 8, []⟩ :
        WorkerManager).shutdownTTSWorker 0).get_tts_worker 0 9).1 ≠ 5) ∧
    (posLookup ((⟨[(0, ⟨5, 0, false⟩)], [(1, ⟨7, 0, false⟩)], 8, []⟩ :
        WorkerManager).shutdownRVCWorker 1).rvc_workers 1 = none ∧
      7 ∈ ((⟨[(0, ⟨5, 0, false⟩)], [(1, ⟨7, 0, false⟩)], 8, []⟩ :
        WorkerManager).shutdownRVCWorker 1).sentineled ∧
      (((⟨[(0, ⟨5, 0, false⟩)], [(1, ⟨7, 0, false⟩)], 8, []⟩ :
        WorkerManager).shutdownRVCWorker 1).get_rvc_worker 1 9).1 ≠ 7) :=
  ⟨(shutdown_helper_removes_record
      (⟨[(0, ⟨5, 0, false⟩)], [(1, ⟨7, 0, false⟩)], 8, []⟩ : WorkerManager)
      0 ⟨5, 0, false⟩ 9).1 (by decide) (by decide) (by decide),
   (shutdown_helper_removes_record
      (⟨[(0, ⟨5, 0, false⟩)], [(1, ⟨7, 0, false⟩)], 8, []⟩ : WorkerManager)
      1 ⟨7, 0, false⟩ 9).2 (by decide) (by decide) (by decide)⟩
